import Mathlib

/-!
Shallow embedding of the chat-transcript front end of the `yas` repository
(file `src/www/main.js`, latest variant: the one that accumulates raw text
in `dataset.rawText` and HTML-encodes serialized JSON payloads).

Messages and chunks are role-tagged lists of Parts.  The DOM chat log is
modelled as a list of entry records: per message bubble we keep the role
(`dataset.role`), the accumulated raw text (`dataset.rawText`) and the
ordered list of non-text Parts whose rendering currently makes up the
entry's `innerHTML` after the markdown block.  The external markdown
renderer (`marked.parse`) is an opaque parameter; its output is assumed to
contain no elements of class `accordion`, so `querySelectorAll` over the
content div finds exactly the accordions produced for function_call and
function_response Parts.
-/

namespace Yas

/-- Arbitrary structured JSON-like value, as carried by the `args`,
`response` and unknown-Part payloads on the wire. -/
inductive Jso
  | null
  | bool (b : Bool)
  | num (n : Int)
  | str (s : String)
  | arr (xs : List Jso)
  | obj (kvs : List (String × Jso))

/-- Message Part: tagged union over the wire shape
`(type: text | function_call | function_response | anything else)`.
For an unrecognized tag, `other` carries the whole part object as JSON,
which is what the renderer serializes in its fallback branch.  A text
Part's `text` field may be absent (`none`). -/
inductive Part
  | text (t : Option String)
  | function_call (name : String) (args : Jso)
  | function_response (name : String) (response : Jso)
  | other (payload : Jso)

/-- Message: `\x7b role, parts \x7d` as received from history or as one
stream chunk. -/
structure Message where
  role : String
  parts : List Part

/-- Truthiness test used by `getTextFromParts`:
the JS filter `p.type === 'text' && p.text`. -/
def partIsTruthyText : Part → Bool
  | Part.text (some t) => t != ""
  | _ => false

/-- Text payload of a Part (used after the truthiness filter). -/
def textOf : Part → String
  | Part.text (some t) => t
  | _ => ""

/-- Concatenation of a list of strings, i.e. `.join('')` in JS. -/
def joinAll : List String → String
  | [] => ""
  | s :: ss => s ++ joinAll ss

/-- Source `getTextFromParts`:
`parts.filter(p => p.type === 'text' && p.text).map(p => p.text).join('')`. -/
def getTextFromParts (parts : List Part) : String :=
  joinAll ((parts.filter partIsTruthyText).map textOf)

/-- Global single-character replacement, i.e. `.replace(/c/g, r)`. -/
def replaceChar (c : Char) (r : String) (s : String) : String :=
  joinAll (s.data.map (fun ch => if ch = c then r else String.singleton ch))

/-- Source `htmlEncode`: three sequential global replacements
`& -> &amp;`, `< -> &lt;`, `> -> &gt;`. -/
def htmlEncode (input : String) : String :=
  replaceChar '>' "&gt;" (replaceChar '<' "&lt;" (replaceChar '&' "&amp;" input))

/-- JSON string escaping for one character (model of the escaping done by
the platform `JSON.stringify` builtin). -/
def jsonEscapeChar (c : Char) : String :=
  if c = '"' then "\\\"" else
  if c = '\\' then "\\\\" else
  if c = '\n' then "\\n" else
  if c = '\t' then "\\t" else
  if c = '\r' then "\\r" else String.singleton c

/-- JSON string escaping. -/
def jsonEscape (s : String) : String :=
  joinAll (s.data.map jsonEscapeChar)

/-- Indentation prefix of a pretty-printed JSON line. -/
def indentStr (n : Nat) : String :=
  String.mk (List.replicate n ' ')

mutual
/-- Model of the platform builtin `JSON.stringify(v, null, 2)` at a given
current indentation depth. -/
def stringifyAt : Nat → Jso → String
  | _, Jso.null => "null"
  | _, Jso.bool true => "true"
  | _, Jso.bool false => "false"
  | _, Jso.num n => toString n
  | _, Jso.str s => "\"" ++ jsonEscape s ++ "\""
  | _, Jso.arr [] => "[]"
  | ind, Jso.arr (x :: xs) =>
      "[\n" ++ stringifyItems (ind + 2) (x :: xs) ++ "\n" ++ indentStr ind ++ "]"
  | _, Jso.obj [] => "\x7b\x7d"
  | ind, Jso.obj (kv :: kvs) =>
      "\x7b\n" ++ stringifyFields (ind + 2) (kv :: kvs) ++ "\n" ++ indentStr ind ++ "\x7d"

/-- Array items of `JSON.stringify`, one per line, comma separated. -/
def stringifyItems : Nat → List Jso → String
  | _, [] => ""
  | ind, [x] => indentStr ind ++ stringifyAt ind x
  | ind, x :: y :: xs =>
      indentStr ind ++ stringifyAt ind x ++ ",\n" ++ stringifyItems ind (y :: xs)

/-- Object fields of `JSON.stringify`, one per line, comma separated. -/
def stringifyFields : Nat → List (String × Jso) → String
  | _, [] => ""
  | ind, [(k, v)] =>
      indentStr ind ++ "\"" ++ jsonEscape k ++ "\": " ++ stringifyAt ind v
  | ind, (k, v) :: kv :: kvs =>
      indentStr ind ++ "\"" ++ jsonEscape k ++ "\": " ++ stringifyAt ind v
        ++ ",\n" ++ stringifyFields ind (kv :: kvs)
end

/-- Top-level `JSON.stringify(v, null, 2)`. -/
def stringify (v : Jso) : String := stringifyAt 0 v

/-- Source `renderPart`, parameterized by the opaque external markdown
renderer `md` (= `marked.parse`).  Template whitespace of the HTML string
literals is elided; the tag/attribute structure is kept verbatim.  Note
that `part.name` is interpolated into the summary as-is, while the
serialized payloads pass through `htmlEncode`.  A `null`/absent part
yields the empty string. -/
def renderPart (md : String → String) : Option Part → String
  | none => ""
  | some (Part.text t) => md (t.getD "")
  | some (Part.function_call name args) =>
      "<details class=\"accordion\"><summary>Function Call: " ++ name
        ++ "</summary><pre><code>" ++ htmlEncode (stringify args)
        ++ "</code></pre></details>"
  | some (Part.function_response name response) =>
      "<details class=\"accordion\"><summary>Function Response: " ++ name
        ++ "</summary><pre><code>" ++ htmlEncode (stringify response)
        ++ "</code></pre></details>"
  | some (Part.other payload) =>
      "<pre><code>" ++ htmlEncode (stringify payload) ++ "</code></pre>"

/-- Discriminator for the `p.type === 'text'` filters. -/
def isTextPart : Part → Bool
  | Part.text _ => true
  | _ => false

/-- Rendered state of one message bubble's content div: the stored
`dataset.rawText` plus the ordered non-text Parts whose rendering
currently follows the markdown block in `innerHTML`. -/
structure ContentState where
  rawText : String
  renderedParts : List Part

/-- Source `renderMessageContent`: splits the parts into text and
non-text, stores the concatenated raw text in `dataset.rawText`, renders
the markdown block once from the full raw text and then each non-text
part in order. -/
def renderMessageContent (parts : List Part) : ContentState :=
  { rawText := getTextFromParts (parts.filter isTextPart)
  , renderedParts := parts.filter (fun p => ! isTextPart p) }

/-- HTML of a content div as produced by `renderMessageContent`
(`marked.parse(rawText)` when non-empty, then the non-text parts). -/
def contentHtml (md : String → String) (c : ContentState) : String :=
  (if c.rawText = "" then "" else md c.rawText)
    ++ joinAll (c.renderedParts.map (fun p => renderPart md (some p)))

/-- One message bubble of the chat log (`dataset.role` plus content). -/
structure EntryDiv where
  role : String
  content : ContentState

/-- The chat log: the ordered list of message bubbles. -/
abbrev ChatLog := List EntryDiv

/-- Source `appendMessage`: creates a new bubble for the message and
appends it at the end of the chat log. -/
def appendMessage (message : Message) (log : ChatLog) : ChatLog :=
  log ++ [{ role := message.role, content := renderMessageContent message.parts }]

/-- Parts whose rendering is an element of class `accordion`
(function_call and function_response; a text part renders markdown and an
unknown part renders a bare pre/code block). -/
def rendersAccordion : Part → Bool
  | Part.function_call _ _ => true
  | Part.function_response _ _ => true
  | _ => false

/-- The placeholder object `\x7b type: 'non-text-placeholder' \x7d` the
extend branch substitutes for each previously rendered accordion. -/
def placeholderPart : Part :=
  Part.other (Jso.obj [("type", Jso.str "non-text-placeholder")])

/-- Source `addOrUpdateMessage` (Live Update Merge).  If the last bubble
exists, carries the same role and that role is not `user`, the last
bubble is extended in place: the old `dataset.rawText` is concatenated
with the text of the incoming chunk, each existing `.accordion` element
is approximated by a placeholder object, and the content div is
re-rendered wholesale from placeholders, the chunk's non-text parts and
one text part holding the full raw text.  Otherwise a new bubble is
appended. -/
def addOrUpdateMessage (message : Message) (log : ChatLog) : ChatLog :=
  match log.getLast? with
  | some lastE =>
    if lastE.role = message.role ∧ message.role ≠ "user" then
      let oldRawText := lastE.content.rawText
      let newTextChunk := getTextFromParts message.parts
      let fullRawText := oldRawText ++ newTextChunk
      let existingNonTextParts :=
        (lastE.content.renderedParts.filter rendersAccordion).map
          (fun _ => placeholderPart)
      let updatedParts :=
        existingNonTextParts
          ++ message.parts.filter (fun p => ! isTextPart p)
          ++ [Part.text (some fullRawText)]
      log.dropLast ++ [{ lastE with content := renderMessageContent updatedParts }]
    else
      appendMessage message log
  | none => appendMessage message log

/-- One step of the `history.reduce` fold in `loadHistory` (History
Merge), at the level of message values.  `JSON.parse(JSON.stringify(x))`
is a deep copy, which at value level is the identity; the aliasing
content of that copy is modelled separately by the heap-level fold
below. -/
def historyStep (accumulator : List Message) (currentMessage : Message) : List Message :=
  match accumulator.getLast? with
  | some lastMessage =>
    if lastMessage.role = currentMessage.role ∧ currentMessage.role ≠ "user" then
      accumulator.dropLast
        ++ [{ lastMessage with parts := lastMessage.parts ++ currentMessage.parts }]
    else
      accumulator ++ [currentMessage]
  | none => accumulator ++ [currentMessage]

/-- Source History Merge: `history.reduce(..., [])` in `loadHistory`. -/
def mergeHistory (history : List Message) : List Message :=
  history.foldl historyStep []

/-- Source `mergedHistory.forEach(appendMessage)`: the chat log built
from a freshly loaded history. -/
def loadHistoryLog (history : List Message) : ChatLog :=
  (mergeHistory history).foldl (fun log m => appendMessage m log) []

/-- Extension of the last element of `accumulator` by the parts of `m`
(the fold branch of History Merge, phrased as a standalone operation so
the adjacency rule can be stated as an equation). -/
def extendLastEntry (accumulator : List Message) (m : Message) : List Message :=
  match accumulator.getLast? with
  | some lastMessage =>
      accumulator.dropLast
        ++ [{ lastMessage with parts := lastMessage.parts ++ m.parts }]
  | none => [m]

/-- Outcome of one inbound SSE `message` event, as dispatched by the
handler in `handleFormSubmit`: `e.data` is falsy (`empty`), or
`JSON.parse(e.data)` throws (`malformed`, carrying the raw data), or it
yields a message (`valid`).  `JSON.parse` itself is a platform builtin;
the handler only branches on these three outcomes. -/
inductive StreamData
  | empty
  | malformed (raw : String)
  | valid (m : Message)

/-- The parsed message of a `valid` event. -/
def validOf : StreamData → Option Message
  | StreamData.valid m => some m
  | _ => none

/-- Discriminator for `malformed` events. -/
def isMalformedData : StreamData → Bool
  | StreamData.malformed _ => true
  | _ => false

/-- State of one user-initiated turn: the chat log, whether the SSE
stream is still open, whether the input controls are disabled, and how
many parse failures have been logged via `console.error`. -/
structure TurnState where
  chatLog : ChatLog
  streamOpen : Bool
  inputDisabled : Bool
  parseErrorLogs : Nat

/-- Source SSE `message` listener in `handleFormSubmit`:
`if (e.data)` guards the parse; a parse failure is logged and ignored;
a parsed message goes through `addOrUpdateMessage`.  Neither branch
closes the stream or touches the input controls. -/
def handleChunkEvent (st : TurnState) (d : StreamData) : TurnState :=
  match d with
  | StreamData.empty => st
  | StreamData.malformed _ => { st with parseErrorLogs := st.parseErrorLogs + 1 }
  | StreamData.valid m => { st with chatLog := addOrUpdateMessage m st.chatLog }

/-- Source SSE `error` listener in `handleFormSubmit`: appends a fixed
system-role error bubble via `appendMessage`, closes the stream and
re-enables the input controls. -/
def handleStreamError (st : TurnState) : TurnState :=
  { st with
      chatLog := appendMessage
        { role := "system"
        , parts := [Part.text (some "Connection error. Please try again.")] }
        st.chatLog
      streamOpen := false
      inputDisabled := false }

/-- Reference to a message object as held by the caller of History
Merge: the role (an immutable string) and the address of its mutable
`parts` array in the parts heap. -/
structure MessageRef where
  role : String
  partsAddr : Nat

/-- Heap-level state of the `history.reduce` fold: the heap of `parts`
arrays and the accumulator of message references. -/
structure HState where
  pheap : List (List Part)
  acc : List MessageRef

/-- Heap-level step of History Merge.  The fold branch mutates the
`parts` array of the accumulator's last message in place
(`lastMessage.parts.push(...currentMessage.parts)`); the append branch
deep-copies the current message (`JSON.parse(JSON.stringify(...))`),
allocating a fresh `parts` array holding a copy of the current one. -/
def histStepH (st : HState) (cur : MessageRef) : HState :=
  let curParts := st.pheap.getD cur.partsAddr []
  match st.acc.getLast? with
  | some lastRef =>
    if lastRef.role = cur.role ∧ cur.role ≠ "user" then
      let lastParts := st.pheap.getD lastRef.partsAddr []
      { st with pheap := st.pheap.set lastRef.partsAddr (lastParts ++ curParts) }
    else
      { pheap := st.pheap ++ [curParts]
      , acc := st.acc ++ [{ role := cur.role, partsAddr := st.pheap.length }] }
  | none =>
      { pheap := st.pheap ++ [curParts]
      , acc := st.acc ++ [{ role := cur.role, partsAddr := st.pheap.length }] }

/-- Heap-level History Merge over the caller's list of message
references, starting from the caller's heap of `parts` arrays. -/
def mergeHistoryH (pheap0 : List (List Part)) (messages : List MessageRef) : HState :=
  messages.foldl histStepH { pheap := pheap0, acc := [] }

/-- Substring occurrence test on character lists. -/
def hasSubList (needle : List Char) : List Char → Bool
  | [] => needle.isEmpty
  | c :: rest => needle.isPrefixOf (c :: rest) || hasSubList needle rest

/-- Substring occurrence test on strings. -/
def hasSubstr (needle hay : String) : Bool :=
  hasSubList needle.data hay.data

/-- Number of characters contributed to the raw text by one Part: a text
Part contributes its `text` field (the empty string when absent), any
other Part contributes nothing. -/
def textContrib : Part → String
  | Part.text t => t.getD ""
  | _ => ""

/-- Test whether `addOrUpdateMessage` takes its append branch on this
log and message (the negation of the extend condition
`last && last.role === m.role && m.role !== 'user'`). -/
def startsNewEntry (log : ChatLog) (m : Message) : Bool :=
  match log.getLast? with
  | none => true
  | some e => ! (e.role == m.role && m.role != "user")

/-! Helper lemmas. -/

lemma joinAll_append (a b : List String) : joinAll (a ++ b) = joinAll a ++ joinAll b := by
  induction a with
  | nil => simp [joinAll, String.empty_append]
  | cons s ss ih => simp [joinAll, ih, String.append_assoc]

lemma getTextFromParts_cons (p : Part) (ps : List Part) :
    getTextFromParts (p :: ps) = textContrib p ++ getTextFromParts ps := by
  cases p with
  | text t =>
      cases t with
      | none =>
          simp [getTextFromParts, List.filter_cons, partIsTruthyText, textContrib,
            String.empty_append]
      | some s =>
          by_cases hs : s = ""
          · subst hs
            simp [getTextFromParts, List.filter_cons, partIsTruthyText, textContrib,
              String.empty_append]
          · simp [getTextFromParts, List.filter_cons, partIsTruthyText, textContrib,
              joinAll, textOf, hs]
  | function_call n a =>
      simp [getTextFromParts, List.filter_cons, partIsTruthyText, textContrib,
        String.empty_append]
  | function_response n a =>
      simp [getTextFromParts, List.filter_cons, partIsTruthyText, textContrib,
        String.empty_append]
  | other j =>
      simp [getTextFromParts, List.filter_cons, partIsTruthyText, textContrib,
        String.empty_append]

lemma getTextFromParts_eq_textContrib (ps : List Part) :
    getTextFromParts ps = joinAll (ps.map textContrib) := by
  induction ps with
  | nil => rfl
  | cons p ps ih => simp [getTextFromParts_cons, ih, joinAll]

lemma partIsTruthyText_and_isTextPart (p : Part) :
    (partIsTruthyText p && isTextPart p) = partIsTruthyText p := by
  cases p with
  | text t => cases t <;> simp [partIsTruthyText, isTextPart]
  | function_call n a => rfl
  | function_response n a => rfl
  | other j => rfl

lemma getTextFromParts_filter_text (ps : List Part) :
    getTextFromParts (ps.filter isTextPart) = getTextFromParts ps := by
  unfold getTextFromParts
  rw [List.filter_filter]
  simp only [partIsTruthyText_and_isTextPart]

lemma getTextFromParts_single_text (s : String) :
    getTextFromParts [Part.text (some s)] = s := by
  by_cases hs : s = ""
  · subst hs; rfl
  · simp [getTextFromParts, List.filter_cons, partIsTruthyText, hs, textOf, joinAll,
      String.append_empty]

lemma filter_text_of_map_placeholder (l : List Part) :
    ((l.map fun _ => placeholderPart).filter isTextPart) = [] := by
  refine List.filter_eq_nil_iff.mpr ?_
  intro a ha
  rcases List.mem_map.mp ha with ⟨x, _, rfl⟩
  simp [placeholderPart, isTextPart]

lemma filter_nontext_of_map_placeholder (l : List Part) :
    ((l.map fun _ => placeholderPart).filter fun p => ! isTextPart p)
      = l.map fun _ => placeholderPart := by
  refine List.filter_eq_self.mpr ?_
  intro a ha
  rcases List.mem_map.mp ha with ⟨x, _, rfl⟩
  rfl

lemma filter_text_of_filter_nontext (l : List Part) :
    ((l.filter fun p => ! isTextPart p).filter isTextPart) = [] := by
  refine List.filter_eq_nil_iff.mpr ?_
  intro a ha
  have h2 := (List.mem_filter.mp ha).2
  simp at h2
  simp [h2]

lemma filter_nontext_idem (l : List Part) :
    ((l.filter fun p => ! isTextPart p).filter fun p => ! isTextPart p)
      = l.filter fun p => ! isTextPart p :=
  List.filter_eq_self.mpr fun _ ha => (List.mem_filter.mp ha).2

lemma renderMessageContent_updated (existing : List Part) (newParts : List Part) (full : String) :
    renderMessageContent
        ((existing.map fun _ => placeholderPart)
          ++ newParts.filter (fun p => ! isTextPart p)
          ++ [Part.text (some full)])
      = { rawText := full
        , renderedParts :=
            (existing.map fun _ => placeholderPart)
              ++ newParts.filter fun p => ! isTextPart p } := by
  unfold renderMessageContent
  rw [List.filter_append, List.filter_append, List.filter_append, List.filter_append]
  rw [filter_text_of_map_placeholder, filter_nontext_of_map_placeholder,
    filter_text_of_filter_nontext, filter_nontext_idem]
  simp [isTextPart, getTextFromParts_single_text, List.filter_cons]

lemma addOrUpdateMessage_extend (log : ChatLog) (e : EntryDiv) (m : Message)
    (hlast : log.getLast? = some e) (hrole : e.role = m.role) (hm : m.role ≠ "user") :
    addOrUpdateMessage m log
      = log.dropLast ++ [{ e with content :=
          { rawText := e.content.rawText ++ getTextFromParts m.parts
          , renderedParts :=
              ((e.content.renderedParts.filter rendersAccordion).map fun _ => placeholderPart)
                ++ m.parts.filter fun p => ! isTextPart p } }] := by
  simp only [addOrUpdateMessage, hlast]
  rw [if_pos ⟨hrole, hm⟩]
  rw [renderMessageContent_updated]

lemma addOrUpdateMessage_append (log : ChatLog) (m : Message)
    (h : startsNewEntry log m = true) :
    addOrUpdateMessage m log = appendMessage m log := by
  unfold startsNewEntry at h
  cases hl : log.getLast? with
  | none => simp only [addOrUpdateMessage, hl]
  | some e =>
      rw [hl] at h
      simp only [addOrUpdateMessage, hl]
      rw [if_neg]
      intro hc
      simp [hc.1, hc.2] at h

lemma appendMessage_getLast (m : Message) (log : ChatLog) :
    (appendMessage m log).getLast?
      = some { role := m.role, content := renderMessageContent m.parts } :=
  List.getLast?_concat log

/-- Concrete function_call Part `calc(\x7bx: 1\x7d)` of the streaming
scenario. -/
def fcCalc : Part := Part.function_call "calc" (Jso.obj [("x", Jso.num 1)])

/-- Concrete function_call Part `lookup(\x7bq: "x"\x7d)`. -/
def fcLookup : Part := Part.function_call "lookup" (Jso.obj [("q", Jso.str "x")])

/-! Claim theorems. -/

/-- Claim C1: merge equivalence fails on the code.  Splitting the model
Message with parts `[function_call calc \x7bx: 1\x7d, text "hi"]` into the
two chunks `[function_call]` and `[text "hi"]` and feeding them through
`addOrUpdateMessage` onto the empty transcript leaves the last entry with
the placeholder object in place of the function_call Part, while feeding
the Message as one chunk keeps the function_call Part; the raw texts
agree but the non-text parts differ. -/
theorem addOrUpdateMessage_chunked_loses_function_call :
    [fcCalc] ++ [Part.text (some "hi")] = [fcCalc, Part.text (some "hi")]
    ∧ (addOrUpdateMessage { role := "model", parts := [Part.text (some "hi")] }
        (addOrUpdateMessage { role := "model", parts := [fcCalc] } ([] : ChatLog))).map
        (fun e => (e.role, e.content.rawText, e.content.renderedParts))
      = [("model", "hi", [placeholderPart])]
    ∧ (addOrUpdateMessage { role := "model", parts := [fcCalc, Part.text (some "hi")] }
        ([] : ChatLog)).map
        (fun e => (e.role, e.content.rawText, e.content.renderedParts))
      = [("model", "hi", [fcCalc])]
    ∧ placeholderPart ≠ fcCalc := by
  refine ⟨rfl, rfl, rfl, fun h => ?_⟩
  exact Part.noConfusion h

/-- Claim C2: the non-text growth invariant fails on the code.  An entry
holding one function_call Part, when extended by a plain text chunk, has
its function_call Part replaced by the placeholder object
`\x7btype: 'non-text-placeholder'\x7d`, so a previously folded non-text
Part is not kept unchanged. -/
theorem addOrUpdateMessage_extend_replaces_nonTextParts :
    (addOrUpdateMessage { role := "model", parts := [fcLookup] } ([] : ChatLog)).map
        (fun e => e.content.renderedParts)
      = [[fcLookup]]
    ∧ (addOrUpdateMessage { role := "model", parts := [Part.text (some "more")] }
        (addOrUpdateMessage { role := "model", parts := [fcLookup] } ([] : ChatLog))).map
        (fun e => e.content.renderedParts)
      = [[placeholderPart]]
    ∧ placeholderPart ≠ fcLookup := by
  refine ⟨rfl, rfl, fun h => ?_⟩
  exact Part.noConfusion h

/-- Claim C3: the streaming scenario with an interleaved tool call fails
on the code.  After the three chunks (text "The answer is ", one
function_call `calc` with args `\x7bx: 1\x7d`, text "42") the single model
entry does have rawText "The answer is 42", but its non-text content is
the placeholder object, not the original function_call Part. -/
theorem streaming_scenario_tool_call_placeholder :
    (addOrUpdateMessage { role := "model", parts := [Part.text (some "42")] }
        (addOrUpdateMessage { role := "model", parts := [fcCalc] }
          (addOrUpdateMessage { role := "model", parts := [Part.text (some "The answer is ")] }
            ([] : ChatLog)))).map (fun e => (e.role, e.content.rawText))
      = [("model", "The answer is 42")]
    ∧ (addOrUpdateMessage { role := "model", parts := [Part.text (some "42")] }
        (addOrUpdateMessage { role := "model", parts := [fcCalc] }
          (addOrUpdateMessage { role := "model", parts := [Part.text (some "The answer is ")] }
            ([] : ChatLog)))).map (fun e => e.content.renderedParts)
      = [[placeholderPart]]
    ∧ placeholderPart ≠ fcCalc := by
  refine ⟨rfl, rfl, fun h => ?_⟩
  exact Part.noConfusion h

/-- Claim C4: renderer escaping fails on the code for Part headers.  The
name of a function_call Part is interpolated into the summary header
without `htmlEncode`, so a name containing markup is injected verbatim
into the output (first conjunct), although the same text run through
`htmlEncode` would contain no such markup (second conjunct); the
null-part tolerance half of the claim does hold (third conjunct). -/
theorem renderPart_header_name_injection :
    hasSubstr "<script>" (renderPart id (some (Part.function_call "<script>x" Jso.null))) = true
    ∧ hasSubstr "<script>" (htmlEncode "<script>x") = false
    ∧ renderPart id none = "" :=
  ⟨rfl, rfl, rfl⟩

/-- Claim C10: a stream-level failure always appends its system-role
error bubble as a brand-new entry via `appendMessage`, bypassing the
adjacency merge of `addOrUpdateMessage`: for every turn state, also one
whose last entry is already system-role, the log grows by exactly one
entry holding the fixed connection-error text, the stream is closed and
the input re-enabled. -/
theorem stream_error_appends_new_entry (st : TurnState) :
    (handleStreamError st).chatLog
      = st.chatLog ++ [{ role := "system"
                       , content := { rawText := "Connection error. Please try again."
                                    , renderedParts := [] } }]
    ∧ (handleStreamError st).chatLog.length = st.chatLog.length + 1
    ∧ (handleStreamError st).streamOpen = false
    ∧ (handleStreamError st).inputDisabled = false := by
  refine ⟨rfl, ?_, rfl, rfl⟩
  show (st.chatLog ++ [_]).length = st.chatLog.length + 1
  simp

lemma mergeHistory_concat (ms : List Message) (m : Message) :
    mergeHistory (ms ++ [m]) = historyStep (mergeHistory ms) m := by
  unfold mergeHistory
  rw [List.foldl_append]
  rfl

lemma historyStep_getLast (acc : List Message) (cur : Message) :
    ∃ e, (historyStep acc cur).getLast? = some e ∧ e.role = cur.role := by
  cases h : acc.getLast? with
  | none =>
      simp only [historyStep, h]
      exact ⟨cur, List.getLast?_concat acc, rfl⟩
  | some lastMessage =>
      simp only [historyStep, h]
      by_cases hc : lastMessage.role = cur.role ∧ cur.role ≠ "user"
      · rw [if_pos hc]
        exact ⟨_, List.getLast?_concat acc.dropLast, hc.1⟩
      · rw [if_neg hc]
        exact ⟨cur, List.getLast?_concat acc, rfl⟩

lemma mergeHistory_concat_getLast (ms : List Message) (m : Message) :
    ∃ e, (mergeHistory (ms ++ [m])).getLast? = some e ∧ e.role = m.role := by
  rw [mergeHistory_concat]
  exact historyStep_getLast (mergeHistory ms) m

lemma appendMessage_fold_length (l : List Message) :
    ∀ init : ChatLog, (l.foldl (fun log m => appendMessage m log) init).length
      = init.length + l.length := by
  induction l with
  | nil => intro init; rfl
  | cons m ms ih =>
      intro init
      show ((ms.foldl (fun log m => appendMessage m log) (appendMessage m init))).length = _
      rw [ih]
      simp [appendMessage]
      omega

lemma loadHistoryLog_length (history : List Message) :
    (loadHistoryLog history).length = (mergeHistory history).length := by
  unfold loadHistoryLog
  rw [appendMessage_fold_length]
  simp

/-- Claim C5: role-adjacency rule of History Merge.  Appending two more
messages `m1, m2` to any history: when `m1` and `m2` carry the same
non-user role, `m2` is folded into the last produced entry (no new entry;
the entry count is unchanged); when either role is `user` or the roles
differ, `m2` becomes its own entry after the previous ones (entry count
grows by one), and the rendered chat log built from the merged history
has exactly one bubble per merged entry. -/
theorem mergeHistory_role_adjacency (ms : List Message) (m1 m2 : Message) :
    (mergeHistory (ms ++ [m1, m2])
      = if m1.role = m2.role ∧ m2.role ≠ "user"
        then extendLastEntry (mergeHistory (ms ++ [m1])) m2
        else mergeHistory (ms ++ [m1]) ++ [m2])
    ∧ ((loadHistoryLog (ms ++ [m1, m2])).length
      = if m1.role = m2.role ∧ m2.role ≠ "user"
        then (loadHistoryLog (ms ++ [m1])).length
        else (loadHistoryLog (ms ++ [m1])).length + 1) := by
  obtain ⟨e, hlast, herole⟩ := mergeHistory_concat_getLast ms m1
  have hsplit : ms ++ [m1, m2] = (ms ++ [m1]) ++ [m2] := by simp
  have hnonempty : mergeHistory (ms ++ [m1]) ≠ [] := by
    intro hnil
    rw [hnil] at hlast
    exact Option.noConfusion hlast
  have hmain : mergeHistory (ms ++ [m1, m2])
      = if m1.role = m2.role ∧ m2.role ≠ "user"
        then extendLastEntry (mergeHistory (ms ++ [m1])) m2
        else mergeHistory (ms ++ [m1]) ++ [m2] := by
    rw [hsplit, mergeHistory_concat]
    simp only [historyStep, extendLastEntry, hlast]
    by_cases hc : m1.role = m2.role ∧ m2.role ≠ "user"
    · rw [if_pos hc, if_pos ⟨herole.trans hc.1, hc.2⟩]
    · rw [if_neg hc, if_neg]
      intro hc2
      exact hc ⟨herole.symm.trans hc2.1, hc2.2⟩
  refine ⟨hmain, ?_⟩
  rw [loadHistoryLog_length, loadHistoryLog_length, hmain]
  by_cases hc : m1.role = m2.role ∧ m2.role ≠ "user"
  · rw [if_pos hc, if_pos hc]
    unfold extendLastEntry
    rw [hlast]
    have hlen : 1 ≤ (mergeHistory (ms ++ [m1])).length :=
      List.length_pos.mpr hnonempty
    simp [List.length_dropLast]
    omega
  · rw [if_neg hc, if_neg hc]
    simp

lemma joinAll_textContrib_flatten (chunks : List (List Part)) :
    joinAll (chunks.flatten.map textContrib)
      = joinAll (chunks.map fun ps => joinAll (ps.map textContrib)) := by
  induction chunks with
  | nil => rfl
  | cons ps rest ih =>
      rw [List.flatten_cons, List.map_append, joinAll_append, ih]
      rfl

lemma textContrib_of_not_text (p : Part) (h : isTextPart p = false) :
    textContrib p = "" := by
  cases p with
  | text t => simp [isTextPart] at h
  | function_call n a => rfl
  | function_response n a => rfl
  | other j => rfl

lemma getTextFromParts_of_no_text (ps : List Part)
    (h : ∀ p ∈ ps, isTextPart p = false) : getTextFromParts ps = "" := by
  induction ps with
  | nil => rfl
  | cons p ps ih =>
      rw [getTextFromParts_cons, textContrib_of_not_text p (h p (List.mem_cons_self p ps)),
        String.empty_append]
      exact ih fun q hq => h q (List.mem_cons_of_mem p hq)

lemma addOrUpdate_chunks_rawText (chunks : List (List Part)) :
    ∀ (log : ChatLog) (e : EntryDiv) (r : String),
      log.getLast? = some e → e.role = r → r ≠ "user" →
      (((chunks.map fun ps => Message.mk r ps).foldl
          (fun lg msg => addOrUpdateMessage msg lg) log).getLast?).map
          (fun x => x.content.rawText)
        = some (e.content.rawText
            ++ joinAll (chunks.map fun ps => joinAll (ps.map textContrib))) := by
  induction chunks with
  | nil =>
      intro log e r hlast _ _
      simp [hlast, joinAll, String.append_empty]
  | cons ps rest ih =>
      intro log e r hlast herole hr
      simp only [List.map_cons, List.foldl_cons]
      rw [addOrUpdateMessage_extend log e (Message.mk r ps) hlast herole hr]
      have h2 := ih
        (log.dropLast ++ [{ e with content :=
          { rawText := e.content.rawText ++ getTextFromParts (Message.mk r ps).parts
          , renderedParts :=
              ((e.content.renderedParts.filter rendersAccordion).map fun _ => placeholderPart)
                ++ (Message.mk r ps).parts.filter fun p => ! isTextPart p } }])
        { e with content :=
          { rawText := e.content.rawText ++ getTextFromParts (Message.mk r ps).parts
          , renderedParts :=
              ((e.content.renderedParts.filter rendersAccordion).map fun _ => placeholderPart)
                ++ (Message.mk r ps).parts.filter fun p => ! isTextPart p } }
        r (List.getLast?_concat _) herole hr
      rw [h2]
      show some ((e.content.rawText ++ getTextFromParts ps) ++ _) = _
      rw [getTextFromParts_eq_textContrib]
      show _ = some (e.content.rawText
        ++ (joinAll (ps.map textContrib) ++ joinAll (rest.map fun qs => joinAll (qs.map textContrib))))
      rw [String.append_assoc]

/-- Claim C6: raw text fidelity.  For any entry created by a first chunk
with parts `ps0` (the append branch applies) and then extended by any
sequence of further chunks of the same non-user role, the entry's
`rawText` is exactly the ordered concatenation of the `text` fields of
the text Parts folded into it, an absent text field counting as the
empty string; and Parts that are not text Parts never contribute any
characters to the extracted text. -/
theorem rawText_fidelity (init : ChatLog) (role : String) (ps0 : List Part)
    (chunks : List (List Part))
    (h0 : startsNewEntry init { role := role, parts := ps0 } = true)
    (hrole : role ≠ "user") :
    (((chunks.map fun ps => Message.mk role ps).foldl
        (fun lg msg => addOrUpdateMessage msg lg)
        (addOrUpdateMessage { role := role, parts := ps0 } init)).getLast?).map
        (fun x => x.content.rawText)
      = some (joinAll ((ps0 :: chunks).flatten.map textContrib))
    ∧ ∀ ps : List Part, (∀ p ∈ ps, isTextPart p = false) → getTextFromParts ps = "" := by
  refine ⟨?_, getTextFromParts_of_no_text⟩
  rw [addOrUpdateMessage_append init _ h0]
  have h2 := addOrUpdate_chunks_rawText chunks
    (appendMessage { role := role, parts := ps0 } init)
    { role := role, content := renderMessageContent ps0 }
    role (appendMessage_getLast { role := role, parts := ps0 } init) rfl hrole
  rw [h2]
  show some ((renderMessageContent ps0).rawText ++ _) = _
  rw [List.flatten_cons, List.map_append, joinAll_append]
  show some (getTextFromParts (ps0.filter isTextPart) ++ _) = _
  rw [getTextFromParts_filter_text, getTextFromParts_eq_textContrib,
    joinAll_textContrib_flatten]

/-- Witness for `rawText_fidelity`: the streamed model turn "Hel" then
"lo!" (the history scenario of the spec) evaluated concretely. -/
theorem rawText_fidelity_witness :
    (startsNewEntry ([] : ChatLog) { role := "model", parts := [Part.text (some "Hel")] } = true
      ∧ ("model" : String) ≠ "user")
    ∧ (((([[Part.text (some "lo!")]] : List (List Part)).map fun ps => Message.mk "model" ps).foldl
          (fun lg msg => addOrUpdateMessage msg lg)
          (addOrUpdateMessage { role := "model", parts := [Part.text (some "Hel")] }
            ([] : ChatLog))).getLast?).map (fun x => x.content.rawText)
        = some (joinAll (([Part.text (some "Hel")] :: [[Part.text (some "lo!")]]).flatten.map
            textContrib))
      ∧ ∀ ps : List Part, (∀ p ∈ ps, isTextPart p = false) → getTextFromParts ps = "" :=
  ⟨⟨rfl, by decide⟩,
    rawText_fidelity ([] : ChatLog) "model" [Part.text (some "Hel")]
      [[Part.text (some "lo!")]] rfl (by decide)⟩

lemma getElem?_concat_lt {α : Type} (l : List α) (v : α) (i : Nat) (h : i < l.length) :
    (l ++ [v])[i]? = l[i]? :=
  List.getElem?_append_left h

lemma histStepH_invariant (n0 : Nat) (st : HState) (cur : MessageRef)
    (hlen : n0 ≤ st.pheap.length)
    (hacc : ∀ a ∈ st.acc, n0 ≤ a.partsAddr) :
    n0 ≤ (histStepH st cur).pheap.length
    ∧ (∀ a ∈ (histStepH st cur).acc, n0 ≤ a.partsAddr)
    ∧ (∀ i, i < n0 → (histStepH st cur).pheap[i]? = st.pheap[i]?) := by
  cases hl : st.acc.getLast? with
  | none =>
      simp only [histStepH, hl]
      refine ⟨by simp; omega, ?_, ?_⟩
      · intro a ha
        rcases List.mem_append.mp ha with h1 | h1
        · exact hacc a h1
        · rw [List.mem_singleton.mp h1]
          exact hlen
      · intro i hi
        exact getElem?_concat_lt st.pheap _ i (Nat.lt_of_lt_of_le hi hlen)
  | some lastRef =>
      have hmem : lastRef ∈ st.acc := by
        have hsplit := List.dropLast_append_getLast? lastRef hl
        rw [← hsplit]
        exact List.mem_append_right _ (List.mem_singleton_self lastRef)
      simp only [histStepH, hl]
      by_cases hc : lastRef.role = cur.role ∧ cur.role ≠ "user"
      · rw [if_pos hc]
        refine ⟨by simp [hlen], hacc, ?_⟩
        intro i hi
        refine List.getElem?_set_ne ?_
        have := hacc lastRef hmem
        omega
      · rw [if_neg hc]
        refine ⟨by simp; omega, ?_, ?_⟩
        · intro a ha
          rcases List.mem_append.mp ha with h1 | h1
          · exact hacc a h1
          · rw [List.mem_singleton.mp h1]
            exact hlen
        · intro i hi
          exact getElem?_concat_lt st.pheap _ i (Nat.lt_of_lt_of_le hi hlen)

lemma histFoldH_invariant (addrs : List MessageRef) :
    ∀ (n0 : Nat) (st : HState),
      n0 ≤ st.pheap.length →
      (∀ a ∈ st.acc, n0 ≤ a.partsAddr) →
      n0 ≤ (addrs.foldl histStepH st).pheap.length
      ∧ (∀ a ∈ (addrs.foldl histStepH st).acc, n0 ≤ a.partsAddr)
      ∧ (∀ i, i < n0 → (addrs.foldl histStepH st).pheap[i]? = st.pheap[i]?) := by
  induction addrs with
  | nil => intro n0 st hlen hacc; exact ⟨hlen, hacc, fun _ _ => rfl⟩
  | cons cur rest ih =>
      intro n0 st hlen hacc
      obtain ⟨h1, h2, h3⟩ := histStepH_invariant n0 st cur hlen hacc
      obtain ⟨g1, g2, g3⟩ := ih n0 (histStepH st cur) h1 h2
      exact ⟨g1, g2, fun i hi => (g3 i hi).trans (h3 i hi)⟩

/-- Claim C7: History Merge does not mutate its input.  In the
heap-level model of the `history.reduce` fold, where the fold branch
mutates the parts array of the accumulator's last entry in place and the
append branch deep-copies the current message into a freshly allocated
parts array, every parts array the caller passed in (every heap cell
below the initial heap size) is unchanged after the whole fold. -/
theorem mergeHistoryH_preserves_input (pheap0 : List (List Part))
    (messages : List MessageRef) (i : Nat) (h : i < pheap0.length) :
    (mergeHistoryH pheap0 messages).pheap[i]? = pheap0[i]? := by
  obtain ⟨-, -, h3⟩ := histFoldH_invariant messages pheap0.length
    { pheap := pheap0, acc := [] } (Nat.le_refl _) (by intro a ha; cases ha)
  exact h3 i h

/-- Witness for `mergeHistoryH_preserves_input`: two same-role model
messages; the fold copies the first and extends the copy in place with
the second, and both input parts arrays are untouched. -/
theorem mergeHistoryH_preserves_input_witness :
    0 < ([[Part.text (some "Hel")], [Part.text (some "lo!")]] : List (List Part)).length
    ∧ (mergeHistoryH [[Part.text (some "Hel")], [Part.text (some "lo!")]]
        [{ role := "model", partsAddr := 0 }, { role := "model", partsAddr := 1 }]).pheap[0]?
      = ([[Part.text (some "Hel")], [Part.text (some "lo!")]] : List (List Part))[0]? :=
  ⟨by decide,
    mergeHistoryH_preserves_input [[Part.text (some "Hel")], [Part.text (some "lo!")]]
      [{ role := "model", partsAddr := 0 }, { role := "model", partsAddr := 1 }] 0 (by decide)⟩

lemma chunkFold_chatLog (events : List StreamData) :
    ∀ st : TurnState,
      (events.foldl handleChunkEvent st).chatLog
        = (events.filterMap validOf).foldl (fun lg m => addOrUpdateMessage m lg) st.chatLog := by
  induction events with
  | nil => intro st; rfl
  | cons d rest ih =>
      intro st
      cases d with
      | empty => exact ih st
      | malformed raw =>
          rw [List.foldl_cons]
          exact ih _
      | valid m =>
          exact ih { st with chatLog := addOrUpdateMessage m st.chatLog }

lemma chunkFold_logs (events : List StreamData) :
    ∀ st : TurnState,
      (events.foldl handleChunkEvent st).parseErrorLogs
        = st.parseErrorLogs + events.countP isMalformedData := by
  induction events with
  | nil => intro st; rfl
  | cons d rest ih =>
      intro st
      rw [List.foldl_cons, ih, List.countP_cons]
      cases d with
      | empty => simp [handleChunkEvent, isMalformedData]
      | malformed raw => simp [handleChunkEvent, isMalformedData]; omega
      | valid m => simp [handleChunkEvent, isMalformedData]

/-- Claim C8: malformed chunk tolerance.  A stream event whose data does
not parse as a Message leaves the chat log untouched, keeps the stream
open and the input-disabled flag as they were, and only logs one more
parse failure; and over any event sequence the chat log is exactly the
fold of `addOrUpdateMessage` over the events that parsed, so valid
chunks after a malformed one still merge as if it never arrived. -/
theorem malformed_chunk_ignored (st : TurnState) (raw : String)
    (events : List StreamData) :
    (handleChunkEvent st (StreamData.malformed raw)).chatLog = st.chatLog
    ∧ (handleChunkEvent st (StreamData.malformed raw)).streamOpen = st.streamOpen
    ∧ (handleChunkEvent st (StreamData.malformed raw)).inputDisabled = st.inputDisabled
    ∧ (handleChunkEvent st (StreamData.malformed raw)).parseErrorLogs
        = st.parseErrorLogs + 1
    ∧ (events.foldl handleChunkEvent st).chatLog
        = (events.filterMap validOf).foldl (fun lg m => addOrUpdateMessage m lg) st.chatLog :=
  ⟨rfl, rfl, rfl, rfl, chunkFold_chatLog events st⟩

/-- Claim C9: an event with falsy data is discarded before any parse
attempt: the whole turn state, including the parse-failure log count, is
unchanged; and over any event sequence the number of logged parse
failures is exactly the number of malformed events, so empty-data events
never produce a parse log. -/
theorem empty_chunk_discarded (st : TurnState) (events : List StreamData) :
    handleChunkEvent st StreamData.empty = st
    ∧ (events.foldl handleChunkEvent st).parseErrorLogs
        = st.parseErrorLogs + events.countP isMalformedData :=
  ⟨rfl, chunkFold_logs events st⟩

end Yas
